import Mathlib

/-!
Verification of the token-run style emitter `lex2csw` (src/testing_code/code.py)
and the argument/file handling of `Code.__init__` and `Code._read_code_file`
(src/manim/mobject/text/code_mobject.py), as a shallow embedding.

External collaborators (the pygments lexer `lex`, the pygments style lookup
`get_style_by_name`, and the file system) are modelled as explicit function
parameters; everything the repository itself does is translated directly.
-/

/-- Style descriptor for one lexical category, as obtained from the pygments
style dictionary: an optional foreground color (the empty string meaning
unset, mirroring the falsy empty string in the source), an italic flag and a
bold flag. -/
structure Style where
  color : String
  italic : Bool
  bold : Bool
deriving DecidableEq, Repr

/-- Modelled from the spec: the constant ITALIC imported from the library
constants module (`from manim.constants import BOLD, ITALIC`), whose source is
not under src/; the spec only requires it to be a fixed slant value. -/
def ITALIC : String := "ITALIC"

/-- Modelled from the spec: the constant BOLD imported from the library
constants module, not under src/; a fixed weight value. -/
def BOLD : String := "BOLD"

/-- Python dict update with a single key: replace the value in place when the
key is already present, otherwise append the new binding at the end.  Keys of
the three mappings are the half-open character ranges; in the source a key is
the string rendering `[start:end]` of the range, embedded here as the pair of
offsets (which that string renders bijectively). -/
def dictUpdate (m : List ((Nat × Nat) × String)) (k : Nat × Nat) (v : String) :
    List ((Nat × Nat) × String) :=
  if k ∈ m.map Prod.fst then
    m.map (fun e => if e.1 = k then (k, v) else e)
  else
    m ++ [(k, v)]

/-- The loop of `lex2csw`: walk the lexed (token, value) pairs keeping the
running character offset `idx`; for each pair compute the range
`(idx, idx + len value)` and conditionally update the color, slant and weight
mappings, exactly as lines 20-35 of src/testing_code/code.py do. -/
def lex2cswAux (styles : String → Style) :
    List (String × String) → Nat →
    List ((Nat × Nat) × String) → List ((Nat × Nat) × String) →
    List ((Nat × Nat) × String) →
    List ((Nat × Nat) × String) × List ((Nat × Nat) × String) ×
      List ((Nat × Nat) × String)
  | [], _, t2c, t2s, t2w => (t2c, t2s, t2w)
  | (token, value) :: rest, idx, t2c, t2s, t2w =>
    let length := value.length
    let slice : Nat × Nat := (idx, idx + length)
    let style := styles token
    let t2c₁ := if style.color ≠ "" then dictUpdate t2c slice ("#" ++ style.color) else t2c
    let t2s₁ := if style.italic then dictUpdate t2s slice ITALIC else t2s
    let t2w₁ := if style.bold then dictUpdate t2w slice BOLD else t2w
    lex2cswAux styles rest (idx + length) t2c₁ t2s₁ t2w₁

/-- `lex2csw(code, lexer, style_name)` from src/testing_code/code.py.  The
pygments call `lex(code, lexer)` is abstracted as the function parameter
`lex` (applied by the source to the code string as given), and
`dict(get_style_by_name(style_name))` as the total lookup `styles`.  Returns
the triple `(t2c, t2s, t2w)` of range-keyed mappings. -/
def lex2csw (code : String) (lex : String → List (String × String))
    (styles : String → Style) :
    List ((Nat × Nat) × String) × List ((Nat × Nat) × String) ×
      List ((Nat × Nat) × String) :=
  let lexed_code := lex code
  lex2cswAux styles lexed_code 0 [] [] []

/-- The keys of a mapping, in insertion order. -/
def keys (m : List ((Nat × Nat) × String)) : List (Nat × Nat) :=
  m.map Prod.fst

/-- The run ranges the loop walks: for each lexed pair, the half-open range
`(idx, idx + len value)` with `idx` the running offset. -/
def runRanges : List (String × String) → Nat → List (Nat × Nat)
  | [], _ => []
  | (_, value) :: rest, idx =>
    (idx, idx + value.length) :: runRanges rest (idx + value.length)

/-- The run ranges of those pairs whose token satisfies `p`: the ranges a
conditional update of one mapping actually receives. -/
def filterRanges (p : String → Bool) : List (String × String) → Nat → List (Nat × Nat)
  | [], _ => []
  | (token, value) :: rest, idx =>
    if p token then
      (idx, idx + value.length) :: filterRanges p rest (idx + value.length)
    else
      filterRanges p rest (idx + value.length)

/-- Total character length of the fragments of a lexed stream. -/
def sumLen : List (String × String) → Nat
  | [] => 0
  | (_, value) :: rest => value.length + sumLen rest

/-- Concatenation of the fragments of a lexed stream: the text the stream
reconstructs. -/
def valuesJoin : List (String × String) → String
  | [] => ""
  | (_, value) :: rest => value ++ valuesJoin rest

/-- The character slice `text[a:b]` (by character offsets, as in the source). -/
def charSlice (text : String) (a b : Nat) : String :=
  ⟨(text.data.drop a).take (b - a)⟩

/-- Concatenation of the slices of `text` named by a list of ranges, in list
order. -/
def concatSlices (text : String) : List (Nat × Nat) → String
  | [] => ""
  | r :: rs => charSlice text r.1 r.2 ++ concatSlices text rs

/-- Decides whether offset `k` lies in some range of the list. -/
def covered (rs : List (Nat × Nat)) (k : Nat) : Bool :=
  rs.any fun r => decide (r.1 ≤ k) && decide (k < r.2)

/-- The truthiness test of the color field: a nonempty color string. -/
def colorSet (st : Style) : Bool :=
  !(st.color == "")

/-- A style descriptor setting at least one of the three attributes. -/
def hasAnyAttr (st : Style) : Bool :=
  colorSet st || st.italic || st.bold

/-- The union of the ranges appearing as keys in the three returned mappings,
de-duplicated across the mappings. -/
def mappingRanges
    (result : List ((Nat × Nat) × String) × List ((Nat × Nat) × String) ×
      List ((Nat × Nat) × String)) : List (Nat × Nat) :=
  (keys result.1 ++ keys result.2.1 ++ keys result.2.2).dedup

/-- Generic single-mapping fold: the evolution of one of the three mappings
under the loop, with predicate `p` deciding whether a token receives an entry
and `val` giving the stored value.  Each projection of `lex2cswAux` is an
instance of this fold. -/
def mapFold (p : String → Bool) (val : String → String) :
    List (String × String) → Nat → List ((Nat × Nat) × String) →
    List ((Nat × Nat) × String)
  | [], _, m => m
  | (token, value) :: rest, idx, m =>
    mapFold p val rest (idx + value.length)
      (if p token then dictUpdate m (idx, idx + value.length) (val token) else m)

/-- Modelled from the spec: normalization of one character list, with tabs
expanded to `tabWidth` spaces and both the two-character sequence carriage
return plus line feed and a bare carriage return replaced by a line feed.
This normalization is what the spec says must happen before lexing; no code
under src/ performs it. -/
def normChars (tabWidth : Nat) : List Char → List Char
  | [] => []
  | '\r' :: '\n' :: rest => '\n' :: normChars tabWidth rest
  | '\r' :: rest => '\n' :: normChars tabWidth rest
  | '\t' :: rest => List.replicate tabWidth ' ' ++ normChars tabWidth rest
  | ch :: rest => ch :: normChars tabWidth rest

/-- Modelled from the spec: tab expansion and line-ending normalization of a
text, applied before the text reaches the lexer. -/
def normalizeText (tabWidth : Nat) (s : String) : String :=
  ⟨normChars tabWidth s.data⟩

/-- The transformation as the spec describes it for claim C2: the text is
normalized before it is handed to the lexer, so all offsets are offsets into
the normalized text.  Stated for comparison with `lex2csw`, which hands the
lexer the original text. -/
def lex2cswNormalized (tabWidth : Nat) (code : String)
    (lex : String → List (String × String)) (styles : String → Style) :
    List ((Nat × Nat) × String) × List ((Nat × Nat) × String) ×
      List ((Nat × Nat) × String) :=
  lex2cswAux styles (lex (normalizeText tabWidth code)) 0 [] [] []

/-- Errors raised by the constructor and the file reader, mirroring the
Python exception classes used in code_mobject.py. -/
inductive CodeError where
  | valueError (msg : String)
  | fileNotFoundError
  | isADirectoryError (msg : String)
deriving DecidableEq, Repr

/-- Abstract file system, standing in for pathlib and the platform: strict
resolution returns the resolved path of an existing target and nothing
otherwise; `isFile` tells a regular file apart from other targets; `readText`
returns the decoded content of a path under a given encoding, with `none`
the platform default encoding. -/
structure FileSystem where
  resolveStrict : String → Option String
  isFile : String → Bool
  readText : String → Option String → String

/-- Python truthiness of an optional string argument: present and nonempty. -/
def truthy : Option String → Bool
  | none => false
  | some s => !(s == "")

/-- `Code._read_code_file` (code_mobject.py lines 290-305): reject a missing
name, resolve the path strictly (raising a file-not-found error when it does
not exist), require a regular file (raising an is-a-directory error
otherwise), then read the text with the given encoding. -/
def readCodeFile (fs : FileSystem) :
    Option String → Option String → Except CodeError String
  | none, _ => Except.error (CodeError.valueError "Name of file cannot be None")
  | some p, encoding =>
    match fs.resolveStrict p with
    | none => Except.error CodeError.fileNotFoundError
    | some rp =>
      if fs.isFile rp then
        Except.ok (fs.readText rp encoding)
      else
        Except.error (CodeError.isADirectoryError
          ("The provided path " ++ rp ++ " is not a file"))

/-- The argument handling of `Code.__init__` (code_mobject.py lines 209-218)
producing `self.code_string`: raise when both `code` and `code_file_path` are
truthy, use `code` when truthy, else read the file - note the call passes the
literal encoding "utf-8" and the `file_encoding` parameter of the constructor
is never consulted - and raise when neither argument is truthy. -/
def codeInitCodeString (fs : FileSystem) (code : Option String)
    (codeFilePath : Option String) (fileEncoding : Option String) :
    Except CodeError String :=
  if truthy code && truthy codeFilePath then
    Except.error (CodeError.valueError
      "Both code and code_file_path arguments cannot be set")
  else if truthy code then
    Except.ok (code.getD "")
  else if truthy codeFilePath then
    readCodeFile fs codeFilePath (some "utf-8")
  else
    Except.error (CodeError.valueError
      "Either code or code_file_path arguments must be set")

/-- Example style lookup: the category kw carries a color, italic and bold;
every other category carries nothing. -/
def redStyles : String → Style := fun t =>
  if t = "kw" then ⟨"ff0000", true, true⟩ else ⟨"", false, false⟩

/-- Example style lookup: the category n carries a color only; every other
category carries nothing. -/
def mixStyles : String → Style := fun t =>
  if t = "n" then ⟨"0000ff", false, false⟩ else ⟨"", false, false⟩

/-- Example file system with one file, whose decoded content depends on the
encoding used to read it. -/
def demoFS : FileSystem :=
  ⟨fun p => if p = "code.py" then some "/abs/code.py" else none,
   fun p => p = "/abs/code.py",
   fun _ enc => if enc = some "utf-8" then "utf8 text" else "other text"⟩

/-- Example file system where the path missing does not resolve and the path
dir resolves to a target that is not a regular file. -/
def missingFS : FileSystem :=
  ⟨fun p => if p = "dir" then some "/abs/dir" else none,
   fun _ => false,
   fun _ _ => ""⟩

/-! ## Mapping lemmas: dictUpdate, the single-mapping fold, and the three
projections of the loop -/

theorem mem_keys_dictUpdate (m : List ((Nat × Nat) × String)) (k : Nat × Nat)
    (v : String) (r : Nat × Nat) :
    r ∈ keys (dictUpdate m k v) ↔ r ∈ keys m ∨ r = k := by
  unfold dictUpdate keys
  by_cases h : k ∈ m.map Prod.fst
  · have hmap : (m.map (fun e => if e.1 = k then (k, v) else e)).map Prod.fst =
        m.map Prod.fst := by
      rw [List.map_map]
      apply List.map_congr_left
      intro e _
      by_cases h1 : e.1 = k <;> simp [h1]
    rw [if_pos h, hmap]
    constructor
    · exact Or.inl
    · rintro (hr | rfl)
      · exact hr
      · exact h
  · rw [if_neg h]
    simp

theorem length_dictUpdate (m : List ((Nat × Nat) × String)) (k : Nat × Nat)
    (v : String) :
    (dictUpdate m k v).length =
      if k ∈ keys m then m.length else m.length + 1 := by
  unfold dictUpdate keys
  by_cases h : k ∈ m.map Prod.fst <;> simp [h]

theorem values_dictUpdate {Q : String → Prop} {m : List ((Nat × Nat) × String)}
    {k : Nat × Nat} {v : String} (hm : ∀ e ∈ m, Q e.2) (hv : Q v) :
    ∀ e ∈ dictUpdate m k v, Q e.2 := by
  intro e he
  unfold dictUpdate at he
  by_cases h : k ∈ m.map Prod.fst
  · rw [if_pos h] at he
    rcases List.mem_map.mp he with ⟨x, hx, rfl⟩
    by_cases h1 : x.1 = k
    · simpa [h1] using hv
    · simpa [h1] using hm x hx
  · rw [if_neg h] at he
    rcases List.mem_append.mp he with h1 | h1
    · exact hm e h1
    · simp only [List.mem_singleton] at h1
      subst h1
      exact hv

theorem lex2cswAux_fst (styles : String → Style) (lexed : List (String × String)) :
    ∀ idx c s w,
      (lex2cswAux styles lexed idx c s w).1 =
        mapFold (fun t => colorSet (styles t)) (fun t => "#" ++ (styles t).color)
          lexed idx c := by
  induction lexed with
  | nil => intro idx c s w; rfl
  | cons pr rest ih =>
    intro idx c s w
    obtain ⟨token, value⟩ := pr
    simp only [lex2cswAux, mapFold]
    rw [ih]
    congr 1
    by_cases h : (styles token).color = "" <;> simp [colorSet, h]

theorem lex2cswAux_snd_fst (styles : String → Style) (lexed : List (String × String)) :
    ∀ idx c s w,
      (lex2cswAux styles lexed idx c s w).2.1 =
        mapFold (fun t => (styles t).italic) (fun _ => ITALIC) lexed idx s := by
  induction lexed with
  | nil => intro idx c s w; rfl
  | cons pr rest ih =>
    intro idx c s w
    obtain ⟨token, value⟩ := pr
    simp only [lex2cswAux, mapFold]
    rw [ih]

theorem lex2cswAux_snd_snd (styles : String → Style) (lexed : List (String × String)) :
    ∀ idx c s w,
      (lex2cswAux styles lexed idx c s w).2.2 =
        mapFold (fun t => (styles t).bold) (fun _ => BOLD) lexed idx w := by
  induction lexed with
  | nil => intro idx c s w; rfl
  | cons pr rest ih =>
    intro idx c s w
    obtain ⟨token, value⟩ := pr
    simp only [lex2cswAux, mapFold]
    rw [ih]

theorem values_mapFold {Q : String → Prop} (p : String → Bool) (val : String → String)
    (lexed : List (String × String)) :
    ∀ idx m, (∀ e ∈ m, Q e.2) → (∀ t, Q (val t)) →
      ∀ e ∈ mapFold p val lexed idx m, Q e.2 := by
  induction lexed with
  | nil => intro idx m hm _ e he; exact hm e he
  | cons pr rest ih =>
    intro idx m hm hv e he
    obtain ⟨token, value⟩ := pr
    simp only [mapFold] at he
    refine ih _ _ ?_ hv e he
    by_cases h : p token
    · rw [if_pos h]
      exact values_dictUpdate hm (hv token)
    · rw [if_neg h]
      exact hm

/-! ## Range-chain lemmas for the running offset -/

theorem str_len_zero {v : String} (h : v.length = 0) : v = "" := by
  cases v with
  | mk d =>
    cases d with
    | nil => rfl
    | cons ch tl => simp [String.length] at h

theorem mem_runRanges_bound (lexed : List (String × String)) :
    ∀ idx, ∀ r ∈ runRanges lexed idx,
      idx ≤ r.1 ∧ r.1 ≤ r.2 ∧ r.2 ≤ idx + sumLen lexed := by
  induction lexed with
  | nil => intro idx r hr; simp [runRanges] at hr
  | cons pr rest ih =>
    intro idx r hr
    obtain ⟨token, value⟩ := pr
    simp only [runRanges, List.mem_cons] at hr
    rcases hr with rfl | hr
    · simp only [sumLen]
      omega
    · have h := ih (idx + value.length) r hr
      simp only [sumLen]
      omega

theorem exists_mem_runRanges (lexed : List (String × String)) :
    ∀ idx k, (∃ r ∈ runRanges lexed idx, r.1 ≤ k ∧ k < r.2) ↔
      idx ≤ k ∧ k < idx + sumLen lexed := by
  induction lexed with
  | nil => intro idx k; simp [runRanges, sumLen]
  | cons pr rest ih =>
    intro idx k
    obtain ⟨token, value⟩ := pr
    simp only [runRanges, List.mem_cons, sumLen]
    constructor
    · rintro ⟨r, rfl | hr, h1, h2⟩
      · simp only at h1 h2
        omega
      · have := (ih (idx + value.length) k).mp ⟨r, hr, h1, h2⟩
        omega
    · intro h
      by_cases hk : k < idx + value.length
      · exact ⟨(idx, idx + value.length), Or.inl rfl, by omega, by simpa using hk⟩
      · obtain ⟨r, hr, hb⟩ := (ih (idx + value.length) k).mpr (by omega)
        exact ⟨r, Or.inr hr, hb⟩

theorem covered_runRanges (lexed : List (String × String)) (idx k : Nat) :
    covered (runRanges lexed idx) k =
      (decide (idx ≤ k) && decide (k < idx + sumLen lexed)) := by
  rw [Bool.eq_iff_iff]
  simp only [covered, List.any_eq_true, Bool.and_eq_true, decide_eq_true_eq]
  exact exists_mem_runRanges lexed idx k

theorem pairwise_runRanges (lexed : List (String × String)) :
    ∀ idx, List.Pairwise (fun r s => r.2 ≤ s.1) (runRanges lexed idx) := by
  induction lexed with
  | nil => intro idx; simp [runRanges]
  | cons pr rest ih =>
    intro idx
    obtain ⟨token, value⟩ := pr
    simp only [runRanges]
    refine List.Pairwise.cons ?_ (ih (idx + value.length))
    intro s hs
    exact (mem_runRanges_bound rest (idx + value.length) s hs).1

theorem valuesJoin_length (lexed : List (String × String)) :
    (valuesJoin lexed).length = sumLen lexed := by
  induction lexed with
  | nil => rfl
  | cons pr rest ih =>
    obtain ⟨token, value⟩ := pr
    simp only [valuesJoin, sumLen, String.length_append, ih]

/-! ## Lemmas on the filtered ranges -/

theorem mem_filterRanges_subset (p : String → Bool) (lexed : List (String × String)) :
    ∀ idx r, r ∈ filterRanges p lexed idx → r ∈ runRanges lexed idx := by
  induction lexed with
  | nil => intro idx r hr; simp [filterRanges] at hr
  | cons pr rest ih =>
    intro idx r hr
    obtain ⟨token, value⟩ := pr
    simp only [filterRanges] at hr
    simp only [runRanges, List.mem_cons]
    by_cases h : p token
    · rw [if_pos h] at hr
      rcases List.mem_cons.mp hr with rfl | hr
      · exact Or.inl rfl
      · exact Or.inr (ih _ r hr)
    · rw [if_neg h] at hr
      exact Or.inr (ih _ r hr)

theorem filterRanges_eq_runRanges (p : String → Bool) (lexed : List (String × String))
    (hall : ∀ pr ∈ lexed, p pr.1 = true) :
    ∀ idx, filterRanges p lexed idx = runRanges lexed idx := by
  induction lexed with
  | nil => intro idx; rfl
  | cons pr rest ih =>
    intro idx
    obtain ⟨token, value⟩ := pr
    have h := hall (token, value) (List.mem_cons_self _ _)
    simp only [filterRanges, runRanges, if_pos h]
    rw [ih (fun q hq => hall q (List.mem_cons_of_mem _ hq))]

theorem mem_filterRanges_or (p q : String → Bool) (lexed : List (String × String)) :
    ∀ idx r, r ∈ filterRanges (fun t => p t || q t) lexed idx ↔
      r ∈ filterRanges p lexed idx ∨ r ∈ filterRanges q lexed idx := by
  induction lexed with
  | nil => intro idx r; simp [filterRanges]
  | cons pr rest ih =>
    intro idx r
    obtain ⟨token, value⟩ := pr
    simp only [filterRanges]
    by_cases hp : p token <;> by_cases hq : q token <;>
      simp [hp, hq, List.mem_cons, ih (idx + value.length) r] <;> tauto

theorem not_mem_filterRanges (p : String → Bool) (tok v : String)
    (l₂ : List (String × String)) (hv : v ≠ "") (hp : p tok = false) :
    ∀ (l₁ : List (String × String)) idx,
      (idx + sumLen l₁, idx + sumLen l₁ + v.length) ∉
        filterRanges p (l₁ ++ (tok, v) :: l₂) idx := by
  have hvlen : v.length ≠ 0 := fun h => hv (str_len_zero h)
  intro l₁
  induction l₁ with
  | nil =>
    intro idx
    simp only [List.nil_append, sumLen, Nat.add_zero, filterRanges, hp,
      Bool.false_eq_true, if_false]
    intro hmem
    have hb := mem_runRanges_bound l₂ (idx + v.length) _
      (mem_filterRanges_subset p l₂ _ _ hmem)
    simp only at hb
    omega
  | cons pr rest ih =>
    intro idx
    obtain ⟨t₀, v₀⟩ := pr
    simp only [List.cons_append, filterRanges, sumLen]
    have harr : idx + (v₀.length + sumLen rest) = idx + v₀.length + sumLen rest := by
      omega
    by_cases h0 : p t₀
    · rw [if_pos h0]
      intro hmem
      rcases List.mem_cons.mp hmem with heq | hmem2
      · rw [Prod.mk.injEq] at heq
        omega
      · rw [harr] at hmem2
        exact ih (idx + v₀.length) hmem2
    · rw [if_neg h0]
      intro hmem
      rw [harr] at hmem
      exact ih (idx + v₀.length) hmem

/-! ## Key and length lemmas for the mapping folds -/

theorem mem_keys_mapFold (p : String → Bool) (val : String → String)
    (lexed : List (String × String)) :
    ∀ idx m r, r ∈ keys (mapFold p val lexed idx m) ↔
      r ∈ keys m ∨ r ∈ filterRanges p lexed idx := by
  induction lexed with
  | nil => intro idx m r; simp [mapFold, filterRanges]
  | cons pr rest ih =>
    intro idx m r
    obtain ⟨token, value⟩ := pr
    simp only [mapFold, filterRanges]
    by_cases h : p token
    · rw [if_pos h, if_pos h, ih, mem_keys_dictUpdate]
      simp only [List.mem_cons]
      tauto
    · rw [if_neg h, if_neg h, ih]

theorem length_mapFold (p : String → Bool) (val : String → String)
    (lexed : List (String × String)) :
    ∀ idx m, (∀ pr ∈ lexed, pr.2 ≠ "") →
      (∀ k ∈ keys m, k.1 < k.2 ∧ k.2 ≤ idx) →
      (mapFold p val lexed idx m).length =
        m.length + lexed.countP (fun pr => p pr.1) := by
  induction lexed with
  | nil => intro idx m _ _; simp [mapFold]
  | cons pr rest ih =>
    intro idx m hne hinv
    obtain ⟨token, value⟩ := pr
    simp only [mapFold]
    have hvne : value.length ≠ 0 := fun h =>
      hne (token, value) (List.mem_cons_self _ _) (str_len_zero h)
    have hrest : ∀ pr ∈ rest, pr.2 ≠ "" := fun q hq =>
      hne q (List.mem_cons_of_mem _ hq)
    rw [List.countP_cons]
    by_cases h : p token
    · rw [if_pos h]
      have hfresh : (idx, idx + value.length) ∉ keys m := by
        intro hk
        have hb := hinv _ hk
        simp only at hb
        omega
      have hstep : ∀ k ∈ keys (dictUpdate m (idx, idx + value.length) (val token)),
          k.1 < k.2 ∧ k.2 ≤ idx + value.length := by
        intro k hk
        rcases (mem_keys_dictUpdate m _ _ k).mp hk with hk | rfl
        · have hb := hinv _ hk
          omega
        · simp only
          omega
      rw [ih (idx + value.length) _ hrest hstep, length_dictUpdate, if_neg hfresh]
      simp [h]
      omega
    · rw [if_neg h]
      have hstep : ∀ k ∈ keys m, k.1 < k.2 ∧ k.2 ≤ idx + value.length := by
        intro k hk
        have hb := hinv _ hk
        omega
      rw [ih (idx + value.length) _ hrest hstep]
      simp [h]

/-! ## Slices of the text along the range chain -/

theorem concatSlices_runRanges (lexed : List (String × String)) :
    ∀ (text : String) idx, text.data.drop idx = (valuesJoin lexed).data →
      concatSlices text (runRanges lexed idx) = valuesJoin lexed := by
  induction lexed with
  | nil => intro text idx _; rfl
  | cons pr rest ih =>
    intro text idx h
    obtain ⟨token, value⟩ := pr
    simp only [runRanges, concatSlices, valuesJoin]
    have hdata : text.data.drop idx = value.data ++ (valuesJoin rest).data := by
      rw [h]
      simp only [valuesJoin, String.data_append]
    have h1 : value.length = value.data.length := rfl
    have hslice : charSlice text idx (idx + value.length) = value := by
      unfold charSlice
      have hlen : idx + value.length - idx = value.length := by omega
      rw [hlen, hdata, h1, List.take_left]
    have hdrop : text.data.drop (idx + value.length) = (valuesJoin rest).data := by
      rw [← List.drop_drop, hdata, h1, List.drop_left]
    rw [hslice, ih text (idx + value.length) hdrop]

theorem countP_replicate {α : Type} (p : α → Bool) (a : α) (N : Nat) :
    List.countP p (List.replicate N a) = if p a then N else 0 := by
  induction N with
  | zero => simp
  | succ n ih =>
    rw [List.replicate_succ, List.countP_cons, ih]
    by_cases h : p a <;> simp [h]

/-! ## Claim C9: empty lexed stream gives three empty mappings -/

/-- C9: when the lexed token stream of the input is empty, `lex2csw` returns
three empty mappings and raises no error (it is a total function). -/
theorem lex2csw_empty_stream (code : String) (lex : String → List (String × String))
    (styles : String → Style) (h : lex code = []) :
    lex2csw code lex styles = ([], [], []) := by
  simp [lex2csw, h, lex2cswAux]

/-- Witness for C9: the empty input with a lexer returning the empty stream. -/
theorem lex2csw_empty_stream_witness :
    (fun _ : String => ([] : List (String × String))) "" = [] ∧
    lex2csw "" (fun _ => []) (fun _ => ⟨"", false, false⟩) = ([], [], []) :=
  ⟨rfl, lex2csw_empty_stream "" (fun _ => []) (fun _ => ⟨"", false, false⟩) rfl⟩

/-! ## Claim C10: the slant mapping only stores ITALIC, the weight mapping
only stores BOLD -/

/-- C10: for every input, every value stored in the returned slant mapping is
the constant ITALIC and every value stored in the returned weight mapping is
the constant BOLD. -/
theorem t2s_t2w_constant_values (code : String)
    (lex : String → List (String × String)) (styles : String → Style) :
    (∀ e ∈ (lex2csw code lex styles).2.1, e.2 = ITALIC) ∧
    (∀ e ∈ (lex2csw code lex styles).2.2, e.2 = BOLD) := by
  constructor
  · intro e he
    simp only [lex2csw] at he
    rw [lex2cswAux_snd_fst] at he
    exact values_mapFold (Q := fun s => s = ITALIC) _ _ (lex code) 0 []
      (by simp) (fun _ => rfl) e he
  · intro e he
    simp only [lex2csw] at he
    rw [lex2cswAux_snd_snd] at he
    exact values_mapFold (Q := fun s => s = BOLD) _ _ (lex code) 0 []
      (by simp) (fun _ => rfl) e he

/-- Witness for C10 at a concrete entry of each of the two mappings. -/
theorem t2s_t2w_constant_values_witness :
    ((0, 2), "ITALIC") ∈ (lex2csw "ab" (fun _ => [("kw", "ab")]) redStyles).2.1 ∧
    ((0, 2), "BOLD") ∈ (lex2csw "ab" (fun _ => [("kw", "ab")]) redStyles).2.2 ∧
    ("ITALIC" : String) = ITALIC ∧ ("BOLD" : String) = BOLD := by
  refine ⟨by decide, by decide, ?_, ?_⟩
  · exact (t2s_t2w_constant_values "ab" (fun _ => [("kw", "ab")]) redStyles).1
      ((0, 2), "ITALIC") (by decide)
  · exact (t2s_t2w_constant_values "ab" (fun _ => [("kw", "ab")]) redStyles).2
      ((0, 2), "BOLD") (by decide)

/-! ## Claim C3: the file encoding argument -/

/-- C3 (code bug evaluation): the constructor reads the file with the literal
encoding utf-8 both when the caller supplies a different encoding and when
the caller supplies none, although reading with the requested encoding (or
the platform default) would give different content on this file system. -/
theorem codeInit_ignores_file_encoding :
    codeInitCodeString demoFS none (some "code.py") (some "latin-1") =
      Except.ok "utf8 text" ∧
    codeInitCodeString demoFS none (some "code.py") none = Except.ok "utf8 text" ∧
    demoFS.readText "/abs/code.py" (some "latin-1") = "other text" ∧
    demoFS.readText "/abs/code.py" none = "other text" :=
  ⟨rfl, rfl, rfl, rfl⟩

/-! ## Claim C4: usage error if and only if not exactly one source argument -/

/-- C4: the constructor raises a usage error (ValueError) exactly when the
two source arguments are both truthy or both falsy, that is, when the caller
does not supply exactly one of an inline code string and a file path (an
empty string counting as absent); in the error case no code string is
produced. -/
theorem codeInit_valueError_iff (fs : FileSystem)
    (code codeFilePath fileEncoding : Option String) :
    (∃ msg, codeInitCodeString fs code codeFilePath fileEncoding =
      Except.error (CodeError.valueError msg)) ↔
    truthy code = truthy codeFilePath := by
  have hread : ∀ p enc, ¬ ∃ msg, readCodeFile fs (some p) enc =
      Except.error (CodeError.valueError msg) := by
    intro p enc
    rintro ⟨msg, hmsg⟩
    simp only [readCodeFile] at hmsg
    cases hr : fs.resolveStrict p with
    | none => rw [hr] at hmsg; exact absurd hmsg (by simp)
    | some rp =>
      rw [hr] at hmsg
      by_cases hf : fs.isFile rp <;> simp [hf] at hmsg
  unfold codeInitCodeString
  cases hc : truthy code <;> cases hp : truthy codeFilePath <;> simp [hc, hp]
  cases hcp : codeFilePath with
  | none => rw [hcp] at hp; simp [truthy] at hp
  | some p => simpa using hread p (some "utf-8")

/-! ## Claim C5: path resolution and validation errors -/

/-- C5: a path that does not resolve raises a file-not-found error and a
path resolving to something other than a regular file raises a
not-a-file error; in both cases no code string is returned. -/
theorem readCodeFile_path_errors (fs : FileSystem) (p : String) (enc : Option String) :
    (fs.resolveStrict p = none →
      readCodeFile fs (some p) enc = Except.error CodeError.fileNotFoundError) ∧
    (∀ rp, fs.resolveStrict p = some rp → fs.isFile rp = false →
      readCodeFile fs (some p) enc = Except.error (CodeError.isADirectoryError
        ("The provided path " ++ rp ++ " is not a file"))) := by
  constructor
  · intro h
    simp [readCodeFile, h]
  · intro rp h hf
    simp [readCodeFile, h, hf]

/-- Witness for C5: a missing path and a path naming a non-file target. -/
theorem readCodeFile_path_errors_witness :
    missingFS.resolveStrict "missing" = none ∧
    readCodeFile missingFS (some "missing") none =
      Except.error CodeError.fileNotFoundError ∧
    missingFS.resolveStrict "dir" = some "/abs/dir" ∧
    missingFS.isFile "/abs/dir" = false ∧
    readCodeFile missingFS (some "dir") none = Except.error
      (CodeError.isADirectoryError "The provided path /abs/dir is not a file") := by
  refine ⟨rfl, (readCodeFile_path_errors missingFS "missing" none).1 rfl, rfl, rfl, ?_⟩
  exact (readCodeFile_path_errors missingFS "dir" none).2 "/abs/dir" rfl rfl

/-! ## Claim C6: the run ranges cover exactly the interval from zero to the
text length, with no gaps and no overlaps -/

/-- C6: for every input text and every lexed token stream reconstructing it,
an offset is covered by some run range of the coalescing pass exactly when it
is below the text length (exact cover, no gaps), and each range ends no later
than any later range begins (no overlaps). -/
theorem runRanges_cover_exact (code : String)
    (lex : String → List (String × String)) (k : Nat)
    (h : valuesJoin (lex code) = code) :
    covered (runRanges (lex code) 0) k = decide (k < code.length) ∧
    List.Pairwise (fun r s => r.2 ≤ s.1) (runRanges (lex code) 0) := by
  constructor
  · rw [covered_runRanges]
    have hs : sumLen (lex code) = code.length := by
      rw [← valuesJoin_length, h]
    rw [hs]
    simp
  · exact pairwise_runRanges (lex code) 0

/-- Witness for C6 on a two-token stream reconstructing the text xyz. -/
theorem runRanges_cover_exact_witness :
    valuesJoin [("a", "x"), ("b", "yz")] = "xyz" ∧
    covered (runRanges [("a", "x"), ("b", "yz")] 0) 1 =
      decide (1 < ("xyz" : String).length) ∧
    List.Pairwise (fun r s => r.2 ≤ s.1) (runRanges [("a", "x"), ("b", "yz")] 0) := by
  refine ⟨rfl, ?_, ?_⟩
  · exact (runRanges_cover_exact "xyz" (fun _ => [("a", "x"), ("b", "yz")]) 1 rfl).1
  · exact (runRanges_cover_exact "xyz" (fun _ => [("a", "x"), ("b", "yz")]) 1 rfl).2

/-! ## Claim C1: consecutive pairs of one category -/

/-- C1 counterexample: a stream of two consecutive pairs of the single
category kw (whose style sets color, italic and bold) yields two ranges in
every mapping, not one merged range: the color mapping has the two keys
(0,2) and (2,4) and each mapping has two entries, not one. -/
theorem lex2csw_no_merge_counterexample :
    (fun _ : String => [("kw", "ab"), ("kw", "cd")]) "abcd" =
      [("kw", "ab"), ("kw", "cd")] ∧
    (lex2csw "abcd" (fun _ => [("kw", "ab"), ("kw", "cd")]) redStyles).1 =
      [((0, 2), "#ff0000"), ((2, 4), "#ff0000")] ∧
    (lex2csw "abcd" (fun _ => [("kw", "ab"), ("kw", "cd")]) redStyles).1.length ≠ 1 ∧
    (lex2csw "abcd" (fun _ => [("kw", "ab"), ("kw", "cd")]) redStyles).2.1.length = 2 ∧
    (lex2csw "abcd" (fun _ => [("kw", "ab"), ("kw", "cd")]) redStyles).2.2.length = 2 :=
  ⟨rfl, by decide, by decide, by decide, by decide⟩

/-- C1 amended: the transformation merges nothing: each (category, fragment)
pair emits its own range, so N consecutive pairs sharing one category emit N
separate ranges into each applicable mapping, not one. -/
theorem lex2csw_one_range_per_pair (code : String)
    (lex : String → List (String × String)) (styles : String → Style)
    (cat v : String) (N : Nat)
    (hlex : lex code = List.replicate N (cat, v)) (hv : v ≠ "") :
    ((styles cat).color ≠ "" → (lex2csw code lex styles).1.length = N) ∧
    ((styles cat).italic = true → (lex2csw code lex styles).2.1.length = N) ∧
    ((styles cat).bold = true → (lex2csw code lex styles).2.2.length = N) := by
  have hne : ∀ pr ∈ List.replicate N (cat, v), pr.2 ≠ "" := by
    intro pr hpr
    rw [List.eq_of_mem_replicate hpr]
    exact hv
  have hinv : ∀ k ∈ keys ([] : List ((Nat × Nat) × String)), k.1 < k.2 ∧ k.2 ≤ 0 := by
    simp [keys]
  refine ⟨?_, ?_, ?_⟩
  · intro hcol
    show (lex2cswAux styles (lex code) 0 [] [] []).1.length = N
    rw [lex2cswAux_fst, hlex, length_mapFold _ _ _ 0 [] hne hinv, countP_replicate]
    simp [colorSet, hcol]
  · intro hital
    show (lex2cswAux styles (lex code) 0 [] [] []).2.1.length = N
    rw [lex2cswAux_snd_fst, hlex, length_mapFold _ _ _ 0 [] hne hinv, countP_replicate]
    simp [hital]
  · intro hbold
    show (lex2cswAux styles (lex code) 0 [] [] []).2.2.length = N
    rw [lex2cswAux_snd_snd, hlex, length_mapFold _ _ _ 0 [] hne hinv, countP_replicate]
    simp [hbold]

/-- Witness for the amended C1 with two consecutive kw pairs. -/
theorem lex2csw_one_range_per_pair_witness :
    (fun _ : String => List.replicate 2 ("kw", "ab")) "abab" =
      List.replicate 2 ("kw", "ab") ∧
    ("ab" : String) ≠ "" ∧
    (lex2csw "abab" (fun _ => List.replicate 2 ("kw", "ab")) redStyles).1.length = 2 ∧
    (lex2csw "abab" (fun _ => List.replicate 2 ("kw", "ab")) redStyles).2.1.length = 2 ∧
    (lex2csw "abab" (fun _ => List.replicate 2 ("kw", "ab")) redStyles).2.2.length = 2 := by
  refine ⟨rfl, by decide, ?_, ?_, ?_⟩
  · exact (lex2csw_one_range_per_pair "abab" _ redStyles "kw" "ab" 2 rfl
      (by decide)).1 (by decide)
  · exact (lex2csw_one_range_per_pair "abab" _ redStyles "kw" "ab" 2 rfl
      (by decide)).2.1 (by decide)
  · exact (lex2csw_one_range_per_pair "abab" _ redStyles "kw" "ab" 2 rfl
      (by decide)).2.2 (by decide)

/-! ## Claim C2: no normalization happens before lexing -/

/-- C2 counterexample: on the one-character tab input with an identity lexer
the transformation differs from the spec-described normalize-then-lex
pipeline at tab width 4: the emitted color range is (0,1), an offset into
the original text, where normalization first would emit (0,4). -/
theorem lex2csw_no_normalization_counterexample :
    lex2csw "\t" (fun s => [("kw", s)]) redStyles ≠
      lex2cswNormalized 4 "\t" (fun s => [("kw", s)]) redStyles ∧
    (lex2csw "\t" (fun s => [("kw", s)]) redStyles).1 = [((0, 1), "#ff0000")] ∧
    (lex2cswNormalized 4 "\t" (fun s => [("kw", s)]) redStyles).1 =
      [((0, 4), "#ff0000")] :=
  ⟨by decide, by decide, by decide⟩

/-- C2 amended: the transformation applies no tab expansion or line-ending
normalization before lexing: the lexer receives the original text, and every
emitted offset is an offset into the original text - with an identity lexer
the single emitted color range is exactly (0, length of the original text),
a tab occupying a single character position. -/
theorem lex2csw_offsets_into_original_text (code : String)
    (styles : String → Style) (cat : String) (hcol : (styles cat).color ≠ "") :
    (lex2csw code (fun s => [(cat, s)]) styles).1 =
      [((0, code.length), "#" ++ (styles cat).color)] := by
  show (lex2cswAux styles [(cat, code)] 0 [] [] []).1 = _
  simp only [lex2cswAux]
  rw [if_pos hcol]
  simp [dictUpdate]

/-- Witness for the amended C2 on a text containing a tab. -/
theorem lex2csw_offsets_into_original_text_witness :
    (redStyles "kw").color ≠ "" ∧
    (lex2csw "a\tb" (fun s => [("kw", s)]) redStyles).1 =
      [((0, ("a\tb" : String).length), "#" ++ (redStyles "kw").color)] :=
  ⟨by decide, lex2csw_offsets_into_original_text "a\tb" redStyles "kw" (by decide)⟩

/-! ## Claim C7: round-trip of the slices named by the mapping keys -/

/-- C7 counterexample: for the text a-space-b with the whitespace category
carrying no style attribute, concatenating the slices named by the
de-duplicated union of the ranges appearing as keys across the three
mappings gives ab, not the original text. -/
theorem slices_roundtrip_counterexample :
    valuesJoin [("n", "a"), ("w", " "), ("n", "b")] = "a b" ∧
    concatSlices "a b"
      (mappingRanges
        (lex2csw "a b" (fun _ => [("n", "a"), ("w", " "), ("n", "b")]) mixStyles)) =
      "ab" ∧
    ("ab" : String) ≠ "a b" :=
  ⟨rfl, by decide, by decide⟩

/-- C7 amended: when every lexed category sets at least one style attribute,
the ranges of styled pairs are exactly the ranges appearing as keys across
the three mappings, and concatenating the slices they name reconstructs the
original text; fragments of attribute-free categories are what the general
round trip misses. -/
theorem slices_roundtrip_styled (code : String)
    (lex : String → List (String × String)) (styles : String → Style)
    (r : Nat × Nat) (hrec : valuesJoin (lex code) = code)
    (hstyled : ∀ pr ∈ lex code, hasAnyAttr (styles pr.1) = true) :
    concatSlices code
      (filterRanges (fun t => hasAnyAttr (styles t)) (lex code) 0) = code ∧
    (r ∈ filterRanges (fun t => hasAnyAttr (styles t)) (lex code) 0 ↔
      (r ∈ keys (lex2csw code lex styles).1 ∨
       r ∈ keys (lex2csw code lex styles).2.1 ∨
       r ∈ keys (lex2csw code lex styles).2.2)) := by
  constructor
  · rw [filterRanges_eq_runRanges _ _ hstyled]
    have h0 : code.data.drop 0 = (valuesJoin (lex code)).data := by
      rw [hrec, List.drop_zero]
    rw [concatSlices_runRanges (lex code) code 0 h0, hrec]
  · have e1 : keys (lex2csw code lex styles).1 =
        keys (mapFold (fun t => colorSet (styles t))
          (fun t => "#" ++ (styles t).color) (lex code) 0 []) := by
      show keys (lex2cswAux styles (lex code) 0 [] [] []).1 = _
      rw [lex2cswAux_fst]
    have e2 : keys (lex2csw code lex styles).2.1 =
        keys (mapFold (fun t => (styles t).italic) (fun _ => ITALIC)
          (lex code) 0 []) := by
      show keys (lex2cswAux styles (lex code) 0 [] [] []).2.1 = _
      rw [lex2cswAux_snd_fst]
    have e3 : keys (lex2csw code lex styles).2.2 =
        keys (mapFold (fun t => (styles t).bold) (fun _ => BOLD)
          (lex code) 0 []) := by
      show keys (lex2cswAux styles (lex code) 0 [] [] []).2.2 = _
      rw [lex2cswAux_snd_snd]
    rw [e1, e2, e3, mem_keys_mapFold, mem_keys_mapFold, mem_keys_mapFold]
    simp only [keys, List.map_nil, List.not_mem_nil, false_or]
    have hA : (fun t => hasAnyAttr (styles t)) =
        (fun t => (colorSet (styles t) || (styles t).italic) || (styles t).bold) := rfl
    rw [hA,
      mem_filterRanges_or (fun t => colorSet (styles t) || (styles t).italic)
        (fun t => (styles t).bold) (lex code) 0 r,
      mem_filterRanges_or (fun t => colorSet (styles t))
        (fun t => (styles t).italic) (lex code) 0 r]
    tauto

/-- Witness for the amended C7 on a fully styled two-token stream. -/
theorem slices_roundtrip_styled_witness :
    valuesJoin [("kw", "ab"), ("kw", "c")] = "abc" ∧
    (∀ pr ∈ [("kw", "ab"), ("kw", "c")], hasAnyAttr (redStyles pr.1) = true) ∧
    concatSlices "abc"
      (filterRanges (fun t => hasAnyAttr (redStyles t)) [("kw", "ab"), ("kw", "c")] 0) =
      "abc" ∧
    ((0, 2) ∈ filterRanges (fun t => hasAnyAttr (redStyles t))
        [("kw", "ab"), ("kw", "c")] 0 ↔
      ((0, 2) ∈ keys (lex2csw "abc" (fun _ => [("kw", "ab"), ("kw", "c")]) redStyles).1 ∨
       (0, 2) ∈ keys (lex2csw "abc" (fun _ => [("kw", "ab"), ("kw", "c")]) redStyles).2.1 ∨
       (0, 2) ∈ keys (lex2csw "abc" (fun _ => [("kw", "ab"), ("kw", "c")]) redStyles).2.2)) := by
  refine ⟨rfl, by decide, ?_, ?_⟩
  · exact (slices_roundtrip_styled "abc" (fun _ => [("kw", "ab"), ("kw", "c")])
      redStyles (0, 2) rfl (by decide)).1
  · exact (slices_roundtrip_styled "abc" (fun _ => [("kw", "ab"), ("kw", "c")])
      redStyles (0, 2) rfl (by decide)).2

/-! ## Claim C8: an attribute the style does not set never keys the
corresponding mapping -/

/-- C8: for a run (a pair with a nonempty fragment, at any position of the
stream), if its style sets no color then the range of the run does not
appear as a key of the color mapping; independently for the italic flag and
the slant mapping, and for the bold flag and the weight mapping. -/
theorem unstyled_run_not_in_mappings (code : String)
    (lex : String → List (String × String)) (styles : String → Style)
    (l₁ : List (String × String)) (tok v : String) (l₂ : List (String × String))
    (hsplit : lex code = l₁ ++ (tok, v) :: l₂) (hv : v ≠ "") :
    ((styles tok).color = "" →
      (sumLen l₁, sumLen l₁ + v.length) ∉ keys (lex2csw code lex styles).1) ∧
    ((styles tok).italic = false →
      (sumLen l₁, sumLen l₁ + v.length) ∉ keys (lex2csw code lex styles).2.1) ∧
    ((styles tok).bold = false →
      (sumLen l₁, sumLen l₁ + v.length) ∉ keys (lex2csw code lex styles).2.2) := by
  refine ⟨?_, ?_, ?_⟩
  · intro hcol hmem
    have hmem₁ : (sumLen l₁, sumLen l₁ + v.length) ∈
        keys (mapFold (fun t => colorSet (styles t))
          (fun t => "#" ++ (styles t).color) (lex code) 0 []) := by
      rw [← lex2cswAux_fst styles (lex code) 0 [] [] []]
      exact hmem
    rw [mem_keys_mapFold] at hmem₁
    rcases hmem₁ with h | h
    · simp [keys] at h
    · rw [hsplit] at h
      have hnot := not_mem_filterRanges (fun t => colorSet (styles t)) tok v l₂ hv
        (by simp [colorSet, hcol]) l₁ 0
      simp only [Nat.zero_add] at hnot
      exact hnot h
  · intro hital hmem
    have hmem₁ : (sumLen l₁, sumLen l₁ + v.length) ∈
        keys (mapFold (fun t => (styles t).italic) (fun _ => ITALIC)
          (lex code) 0 []) := by
      rw [← lex2cswAux_snd_fst styles (lex code) 0 [] [] []]
      exact hmem
    rw [mem_keys_mapFold] at hmem₁
    rcases hmem₁ with h | h
    · simp [keys] at h
    · rw [hsplit] at h
      have hnot := not_mem_filterRanges (fun t => (styles t).italic) tok v l₂ hv
        hital l₁ 0
      simp only [Nat.zero_add] at hnot
      exact hnot h
  · intro hbold hmem
    have hmem₁ : (sumLen l₁, sumLen l₁ + v.length) ∈
        keys (mapFold (fun t => (styles t).bold) (fun _ => BOLD)
          (lex code) 0 []) := by
      rw [← lex2cswAux_snd_snd styles (lex code) 0 [] [] []]
      exact hmem
    rw [mem_keys_mapFold] at hmem₁
    rcases hmem₁ with h | h
    · simp [keys] at h
    · rw [hsplit] at h
      have hnot := not_mem_filterRanges (fun t => (styles t).bold) tok v l₂ hv
        hbold l₁ 0
      simp only [Nat.zero_add] at hnot
      exact hnot h

/-- Witness for C8: the unstyled whitespace run of the text a-space-b keys
none of the three mappings. -/
theorem unstyled_run_not_in_mappings_witness :
    ((" " : String) ≠ "") ∧
    (mixStyles "w").color = "" ∧
    (sumLen [("n", "a")], sumLen [("n", "a")] + (" " : String).length) ∉
      keys (lex2csw "a b" (fun _ => [("n", "a"), ("w", " "), ("n", "b")]) mixStyles).1 ∧
    (sumLen [("n", "a")], sumLen [("n", "a")] + (" " : String).length) ∉
      keys (lex2csw "a b" (fun _ => [("n", "a"), ("w", " "), ("n", "b")]) mixStyles).2.1 ∧
    (sumLen [("n", "a")], sumLen [("n", "a")] + (" " : String).length) ∉
      keys (lex2csw "a b" (fun _ => [("n", "a"), ("w", " "), ("n", "b")]) mixStyles).2.2 := by
  have h := unstyled_run_not_in_mappings "a b"
    (fun _ => [("n", "a"), ("w", " "), ("n", "b")]) mixStyles
    [("n", "a")] "w" " " [("n", "b")] rfl (by decide)
  exact ⟨by decide, by decide, h.1 (by decide), h.2.1 (by decide), h.2.2 (by decide)⟩
